import Mathlib

/-!
Shallow embedding of the `req` HTTP client core (`client.go`).

The embedding has two parts:

* namespace `Req` — a value-semantics model of the client's configuration
  store, the request pipeline `do`, the redirect-policy machinery and the
  configuration setters.  Go maps (`http.Header`, `url.Values`,
  `map[string]string`) are modelled as association lists, machine state
  mutated through pointers is modelled by explicit state passing, fallible
  external collaborators (URL parsing, certificate loading, the transport
  exchange) are passed in as explicit `Except`-returning functions.

* namespace `ReqHeap` — a heap model used for the clone/aliasing claims:
  each mutable collection field of a `Client` is a reference (`Option Nat`,
  `none` standing for a nil Go map/slice) into an explicit heap, so that
  sharing between a client and its clone is observable.

The source file contains two versions of `client.go` (an explicit marker
separates them); both versions of `Client.Clone` are embedded
(`ReqHeap.Client.Clone` for the first, `ReqHeap.Client.CloneB` for the
second, which drops and shares several collections).
-/

set_option maxHeartbeats 1000000

/-- Errors (`error` values in Go) are modelled by their message string. -/
abbrev Err := String

/-- Go `http.Cookie`; only the name/value pair is relevant to the claims. -/
structure Cookie where
  name : String
  value : String
deriving DecidableEq

/-- Add semantics of Go `http.Header.Add` / `url.Values.Add`: append `v`
to the value list of key `k`, creating the entry if absent. -/
def multiAdd (m : List (String × List String)) (k v : String) : List (String × List String) :=
  match m with
  | [] => [(k, [v])]
  | (k', vs) :: rest => if k' = k then (k', vs ++ [v]) :: rest else (k', vs) :: multiAdd rest k v

/-- Set semantics of Go `http.Header.Set` / `url.Values.Set`: replace the
value list of key `k` by the single value `v`. -/
def multiSet (m : List (String × List String)) (k v : String) : List (String × List String) :=
  match m with
  | [] => [(k, [v])]
  | (k', vs) :: rest => if k' = k then (k', [v]) :: rest else (k', vs) :: multiSet rest k v

/-- Index of the last occurrence of `c` in `l`, `-1` when absent
(Go `strings.LastIndex` on a one-character needle). -/
def lastIndexOf (l : List Char) (c : Char) : Int :=
  l.enum.foldl (fun acc p => if p.2 = c then Int.ofNat p.1 else acc) (-1)

/-- Whether `suf` is a suffix of `s` (Go `strings.HasSuffix`), computed on
the character lists so that concrete instances evaluate. -/
def strEndsWith (s suf : String) : Bool :=
  suf.toList.isSuffixOf s.toList

/-- Go `strings.TrimSuffix`, computed on the character lists. -/
def trimSuffix (s suf : String) : String :=
  if strEndsWith s suf then String.mk (s.toList.take (s.toList.length - suf.toList.length)) else s

/-- Modelled from the spec: `hasPort` (defined outside the shown source,
mirroring the standard library helper the repository copies) reports
whether `s` ends in a `:port` segment: the last colon comes after the last
`[` of an IPv6 literal. -/
def hasPort (s : String) : Bool :=
  lastIndexOf s.toList (':') > lastIndexOf s.toList ('[')

/-- Modelled from the spec: `removeEmptyPort` (defined outside the shown
source) normalizes an empty port out of a host, e.g. host `example.com:`
becomes `example.com` ("Resolving a URL with an empty port segment
normalizes to a host without trailing colon"). -/
def removeEmptyPort (host : String) : String :=
  if hasPort host then trimSuffix host (":") else host

namespace Req

/-- Go `net/url.URL`; the fields `client.go` touches. -/
structure URL where
  Scheme : String
  Host : String
  Path : String
  RawQuery : String
deriving DecidableEq

/-- Go `net/http.Request` as used by `client.go`: method, parsed URL, host
and headers.  `AddCookie` serializes cookies into a header; we keep the
added cookies as a list. -/
structure HttpRequest where
  Method : String
  URL : URL
  Host : String
  Header : List (String × List String)
  cookies : List Cookie
deriving DecidableEq

/-- Modelled from the spec: the per-call request descriptor (`Request`,
defined outside the shown source).  Fields are the ones `client.go` reads
and writes: the raw target URL, request-level headers and cookies, the
start timestamp, the save-to-file marker, the trace marker and the
underlying `http.Request`.  The Go struct also holds a back-reference to
its owning `Client`; requests are created through `Client.R`, which sets
that back-reference to the creating client, so the model passes the owning
client explicitly instead. -/
structure Request where
  URL : String
  Headers : List (String × List String)
  Cookies : List Cookie
  StartTime : Nat
  isSaveResponse : Bool
  trace : Bool
  RawRequest : HttpRequest
deriving DecidableEq

/-- Go `net/http.Response` as consumed by the pipeline: status, headers,
and the live body stream.  Reading the stream yields either all its bytes
or a read error. -/
structure HttpResponse where
  StatusCode : Nat
  Header : List (String × List String)
  bodyStream : Except Err (List Nat)

/-- Modelled from the spec: the `Response` wrapper (defined outside the
shown source): it wraps the raw transport response plus a back-reference
to its request; `body` is the buffered copy of the body, `none` while the
body has not been materialized.  The embedded raw response is named
`Response` in Go; Lean rejects a field shadowing its own structure name,
so it is `RawResponse` here. -/
structure Response where
  Request : Option Request
  RawResponse : Option HttpResponse
  body : Option (List Nat)

/-- Go `&Response{}`: the zero response value `do` allocates up front. -/
def Response.empty : Response :=
  { Request := none, RawResponse := none, body := none }

/-- Modelled from the spec: `Response.ToBytes` (defined outside the shown
source) eagerly reads and buffers the full response body; once buffered,
it returns the buffered copy without touching the stream.  The branch with
no underlying response is unreachable from `do`, which always fills
`Response` before the auto-read. -/
def Response.ToBytes (resp : Response) : Response × Except Err (List Nat) :=
  match resp.body with
  | some bs => (resp, .ok bs)
  | none =>
    match resp.RawResponse with
    | none => (resp, .ok [])
    | some hr =>
      match hr.bodyStream with
      | .error e => (resp, .error e)
      | .ok bs => ({ resp with body := some bs }, .ok bs)

/-- The configuration a middleware stage sees of its client (the exported
fields of `Client`; the Go stages receive the `*Client` itself, but a
stage list cannot mention the very type holding it in Lean, so stages
receive this view). -/
structure ClientView where
  BaseURL : String
  PathParams : List (String × String)
  QueryParams : List (String × List String)
  Headers : List (String × List String)
  Cookies : List Cookie
  FormData : List (String × List String)
  DebugLog : Bool
  AllowGetMethodPayload : Bool
  outputDirectory : String
  scheme : String
deriving DecidableEq

/-- Go `RequestMiddleware`: `func(*Client, *Request) error`.  The stage
receives the client's configuration and the request, and returns the
(possibly mutated) request together with an optional error. -/
abbrev RequestMiddleware := ClientView → Request → Request × Option Err

/-- Go `ResponseMiddleware`: `func(*Client, *Response) error`. -/
abbrev ResponseMiddleware := ClientView → Response → Response × Option Err

/-- Go `RedirectPolicy`: `func(req *http.Request, via []*http.Request) error`;
`none` means the hop is allowed. -/
abbrev RedirectPolicy := HttpRequest → List HttpRequest → Option Err

/-- Proxy selection function stored in the transport. -/
abbrev ProxyFn := HttpRequest → Except Err (Option URL)

/-- Modelled from the spec: `http.ProxyFromEnvironment` is an external
collaborator reading the process environment; it is a fixed opaque default
value for the transport's proxy field. -/
def proxyFromEnvironment : ProxyFn := fun _ => .ok none

/-- Go `http.ProxyURL(u)`: a proxy function that always selects `u`. -/
def proxyURL (u : URL) : ProxyFn := fun _ => .ok (some u)

/-- A client TLS certificate (`tls.Certificate`), kept abstract. -/
structure Certificate where
  data : String
deriving DecidableEq

/-- The transport's TLS configuration; `Certificates` is the client
certificate list `SetCerts`/`SetCertFromFile` append to. -/
structure TLSConfig where
  Certificates : List Certificate

/-- Response-processing options carried by the transport. -/
structure ResponseOptions where
  DisableAutoDecode : Bool

/-- The `req` `Transport` fields `client.go` configures (the wire-level
mechanics of the transport live outside the shown source and outside this
model). Durations are nanosecond counts (`time.Duration`). -/
structure Transport where
  ResponseOptions : ResponseOptions
  ForceAttemptHTTP2 : Bool
  Proxy : ProxyFn
  MaxIdleConns : Nat
  IdleConnTimeoutNs : Nat
  TLSHandshakeTimeoutNs : Nat
  ExpectContinueTimeoutNs : Nat
  TLSClientConfig : Option TLSConfig
  DisableKeepAlives : Bool
  DisableCompression : Bool

/-- The fields of the wrapped `net/http.Client` that `client.go` sets.
Its `Transport` field always aliases the client's `t`, so it is not
duplicated here; `hasJar` records that a cookie jar was installed. -/
structure HttpClient where
  CheckRedirect : RedirectPolicy
  TimeoutNs : Nat
  hasJar : Bool

/-- The `req` `Client` (the configuration store), with the mutable
collections as association lists.  The logger, codec functions and dump
options are outside the claims settled against this model and omitted. -/
structure Client where
  BaseURL : String
  PathParams : List (String × String)
  QueryParams : List (String × List String)
  Headers : List (String × List String)
  Cookies : List Cookie
  FormData : List (String × List String)
  DebugLog : Bool
  AllowGetMethodPayload : Bool
  trace : Bool
  outputDirectory : String
  disableAutoReadResponse : Bool
  scheme : String
  t : Transport
  httpClient : HttpClient
  beforeRequest : List RequestMiddleware
  udBeforeRequest : List RequestMiddleware
  afterResponse : List ResponseMiddleware

/-- The configuration view of a client handed to middleware stages. -/
def Client.view (c : Client) : ClientView :=
  { BaseURL := c.BaseURL, PathParams := c.PathParams, QueryParams := c.QueryParams,
    Headers := c.Headers, Cookies := c.Cookies, FormData := c.FormData,
    DebugLog := c.DebugLog, AllowGetMethodPayload := c.AllowGetMethodPayload,
    outputDirectory := c.outputDirectory, scheme := c.scheme }

/-- Modelled from the spec: built-in before-stage resolving the request
URL (defined outside the shown source).  Its transformation is irrelevant
to the stage-ordering and fail-fast claims, which quantify over arbitrary
stage behaviours; it is kept abstract as an error-free stage. -/
def parseRequestURL : RequestMiddleware := fun _ r => (r, none)

/-- Modelled from the spec: built-in before-stage merging headers
(defined outside the shown source); kept abstract as an error-free stage. -/
def parseRequestHeader : RequestMiddleware := fun _ r => (r, none)

/-- Modelled from the spec: built-in before-stage merging cookies
(defined outside the shown source); kept abstract as an error-free stage. -/
def parseRequestCookie : RequestMiddleware := fun _ r => (r, none)

/-- Modelled from the spec: built-in before-stage encoding the body
(defined outside the shown source); kept abstract as an error-free stage. -/
def parseRequestBody : RequestMiddleware := fun _ r => (r, none)

/-- Modelled from the spec: built-in after-stage materializing/decoding
the body (defined outside the shown source); kept abstract as an
error-free stage. -/
def parseResponseBody : ResponseMiddleware := fun _ resp => (resp, none)

/-- Modelled from the spec: built-in after-stage streaming save-to-file
downloads (defined outside the shown source); kept abstract as an
error-free stage. -/
def handleDownload : ResponseMiddleware := fun _ resp => (resp, none)

/-- `Client.defaultCheckRedirect`: allow up to 10 recorded prior requests,
then fail.  The Go receiver is used only for debug logging, which the
model omits, so the decision depends only on `via`. -/
def defaultCheckRedirect (_req : HttpRequest) (via : List HttpRequest) : Option Err :=
  if via.length ≥ 10 then some ("stopped after 10 redirects") else none

/-- The default `Transport` built by `C`. -/
def defaultTransport : Transport :=
  { ResponseOptions := { DisableAutoDecode := false },
    ForceAttemptHTTP2 := true,
    Proxy := proxyFromEnvironment,
    MaxIdleConns := 100,
    IdleConnTimeoutNs := 90 * 1000000000,
    TLSHandshakeTimeoutNs := 10 * 1000000000,
    ExpectContinueTimeoutNs := 1 * 1000000000,
    TLSClientConfig := none,
    DisableKeepAlives := false,
    DisableCompression := false }

/-- `C()`: the constructor.  It installs the built-in before stages
`[parseRequestURL, parseRequestHeader, parseRequestCookie, parseRequestBody]`,
the built-in after stages `[parseResponseBody, handleDownload]`, the
default transport, a cookie jar, a 2-minute timeout, and the default
redirect policy. -/
def C : Client :=
  { BaseURL := "", PathParams := [], QueryParams := [], Headers := [],
    Cookies := [], FormData := [], DebugLog := false,
    AllowGetMethodPayload := false, trace := false, outputDirectory := "",
    disableAutoReadResponse := false, scheme := "",
    t := defaultTransport,
    httpClient :=
      { CheckRedirect := defaultCheckRedirect,
        TimeoutNs := 120 * 1000000000,
        hasJar := true },
    beforeRequest := [parseRequestURL, parseRequestHeader, parseRequestCookie, parseRequestBody],
    udBeforeRequest := [],
    afterResponse := [parseResponseBody, handleDownload] }

/-- `Client.R`: create a fresh request with an empty raw `http.Request`. -/
def Client.R (_c : Client) : Request :=
  { URL := "", Headers := [], Cookies := [], StartTime := 0,
    isSaveResponse := false, trace := false,
    RawRequest :=
      { Method := "", URL := { Scheme := "", Host := "", Path := "", RawQuery := "" },
        Host := "", Header := [], cookies := [] } }

/-- `Client.OnBeforeRequest`: append a user request stage to
`udBeforeRequest`. -/
def Client.OnBeforeRequest (c : Client) (m : RequestMiddleware) : Client :=
  { c with udBeforeRequest := c.udBeforeRequest ++ [m] }

/-- `Client.OnAfterResponse`: append a user response stage to
`afterResponse` (after the built-ins installed by `C`). -/
def Client.OnAfterResponse (c : Client) (m : ResponseMiddleware) : Client :=
  { c with afterResponse := c.afterResponse ++ [m] }

/-- `Client.isPayloadForbid`: a body is forbidden for GET unless
`AllowGetMethodPayload`, and always for HEAD and OPTIONS. -/
def Client.isPayloadForbid (c : Client) (m : String) : Bool :=
  (m == "GET" && !c.AllowGetMethodPayload) || m == "HEAD" || m == "OPTIONS"

/-- `Client.EnableAllowGetMethodPayload`. -/
def Client.EnableAllowGetMethodPayload (c : Client) (a : Bool) : Client :=
  { c with AllowGetMethodPayload := a }

/-- The composed redirect decision `SetRedirectPolicy` installs: evaluate
the policies in list order, skipping nil entries (`none`), returning the
first non-nil error; when every policy allows the hop the composed
function allows it (the trailing debug log of the Go closure is omitted). -/
def applyPolicies : List (Option RedirectPolicy) → HttpRequest → List HttpRequest → Option Err
  | [], _, _ => none
  | none :: rest, req, via => applyPolicies rest req via
  | some f :: rest, req, via =>
    match f req via with
    | some e => some e
    | none => applyPolicies rest req via

/-- The closure `SetRedirectPolicy` assigns to `httpClient.CheckRedirect`. -/
def composeRedirectPolicies (policies : List (Option RedirectPolicy)) : RedirectPolicy :=
  fun req via => applyPolicies policies req via

/-- `Client.SetRedirectPolicy`: an empty policy list leaves the client
unchanged; otherwise the composed decision function replaces
`httpClient.CheckRedirect`.  Go passes the policies variadically and a
slot may be nil, hence `Option RedirectPolicy`. -/
def Client.SetRedirectPolicy (c : Client) (policies : List (Option RedirectPolicy)) : Client :=
  if policies.length = 0 then c
  else { c with httpClient := { c.httpClient with CheckRedirect := composeRedirectPolicies policies } }

/-- `Client.SetProxyURL`: parse the proxy URL (`url.Parse` is the external
collaborator `parse`); on failure log and return the client unchanged
(never panic, configuration untouched), on success install the proxy
function. -/
def Client.SetProxyURL (c : Client) (parse : String → Except Err URL) (proxyUrl : String) : Client :=
  match parse proxyUrl with
  | .error _ => c
  | .ok u => { c with t := { c.t with Proxy := proxyURL u } }

/-- `Client.SetCommonQueryString`: parse the trimmed raw query string
(`url.ParseQuery` is the external collaborator `parseQuery`); on success
add every parsed key/value into `QueryParams`, on failure log a warning
and return the client unchanged. -/
def Client.SetCommonQueryString (c : Client)
    (parseQuery : String → Except Err (List (String × List String))) (query : String) : Client :=
  match parseQuery query.trim with
  | .ok params =>
    { c with QueryParams :=
        params.foldl (fun acc kv => kv.2.foldl (fun acc v => multiAdd acc kv.1 v) acc) c.QueryParams }
  | .error _ => c

/-- `Client.SetCertFromFile`: load the cert/key pair (`tls.LoadX509KeyPair`
is the external collaborator `load`); on failure log and return the client
unchanged (the TLS config is not even lazily initialized), on success
append the certificate to the (lazily created) TLS config. -/
def Client.SetCertFromFile (c : Client) (load : String → String → Except Err Certificate)
    (certFile keyFile : String) : Client :=
  match load certFile keyFile with
  | .error _ => c
  | .ok cert =>
    let config := c.t.TLSClientConfig.getD { Certificates := [] }
    { c with t := { c.t with TLSClientConfig := some { config with Certificates := config.Certificates ++ [cert] } } }

/-- `SetDefaultClient`: replace the global default client only when the
argument is non-nil (`some`).  The global variable is threaded explicitly:
`current` is its value before the call, the result its value after. -/
def SetDefaultClient (current : Option Client) (c : Option Client) : Option Client :=
  match c with
  | some cc => some cc
  | none => current

/-- The package-level `R()` forwarding to the current default client;
defined (`some`) exactly when the default client is non-nil. -/
def globalR (current : Option Client) : Option Request :=
  current.map Client.R

/-- Fail-fast loop over request stages (`for _, f := range ...` with an
early return on the first error). -/
def runReqMWs (cv : ClientView) (l : List RequestMiddleware) (r : Request) : Request × Option Err :=
  match l with
  | [] => (r, none)
  | f :: rest =>
    match f cv r with
    | (r1, none) => runReqMWs cv rest r1
    | (r1, some e) => (r1, some e)

/-- Fail-fast loop over response stages. -/
def runRespMWs (cv : ClientView) (l : List ResponseMiddleware) (resp : Response) : Response × Option Err :=
  match l with
  | [] => (resp, none)
  | f :: rest =>
    match f cv resp with
    | (resp1, none) => runRespMWs cv rest resp1
    | (resp1, some e) => (resp1, some e)

/-- `setRequestURL`: parse the url (external collaborator `parse`),
normalize an empty port out of the host, and set the raw request's URL
and host. -/
def setRequestURL (parse : String → Except Err URL) (r : HttpRequest) (url : String) :
    Except Err HttpRequest :=
  match parse url with
  | .error e => .error e
  | .ok u =>
    let u := { u with Host := removeEmptyPort u.Host }
    .ok { r with URL := u, Host := u.Host }

/-- `setRequestHeaderAndCookie`: add the request-level headers into the
raw request's header map and append the request-level cookies. -/
def setRequestHeaderAndCookie (r : Request) : Request :=
  let hdr := r.Headers.foldl (fun acc kv => kv.2.foldl (fun acc v => multiAdd acc kv.1 v) acc)
    r.RawRequest.Header
  { r with RawRequest := { r.RawRequest with Header := hdr, cookies := r.RawRequest.cookies ++ r.Cookies } }

/-- `setTrace`: install a trace handle when the client requests tracing
and the request has none (the context wiring is outside this model). -/
def setTrace (c : Client) (r : Request) : Request :=
  if r.trace then r
  else if c.trace then { r with trace := true } else r

/-- `setupRequest`: resolve the URL (ignoring a parse error, as the Go
code drops `setRequestURL`'s return value), materialize headers and
cookies, and attach tracing. -/
def setupRequest (parse : String → Except Err URL) (c : Client) (r : Request) : Request :=
  let r :=
    match setRequestURL parse r.RawRequest r.URL with
    | .ok rr => { r with RawRequest := rr }
    | .error _ => r
  let r := setRequestHeaderAndCookie r
  setTrace c r

/-- The before phase of `Client.do`: the loop over the user-registered
stages (`udBeforeRequest`) followed by the loop over the built-in stages
(`beforeRequest`), failing fast. -/
def Client.doBefore (c : Client) (r : Request) : Request × Option Err :=
  match runReqMWs c.view c.udBeforeRequest r with
  | (r1, some e) => (r1, some e)
  | (r1, none) => runReqMWs c.view c.beforeRequest r1

/-- `Client.do` (named `doRequest` because `do` is reserved in Lean): run
the before pipeline fail-fast, set up the raw request, dispatch through
the transport (`transport` stands for `httpClient.Do`, which encloses the
redirect loop), auto-read the body unless disabled or save-to-file, then
run the after pipeline fail-fast.  `parse` is the URL parser used by
`setupRequest`. -/
def Client.doRequest (c : Client) (parse : String → Except Err URL)
    (transport : HttpRequest → Except Err HttpResponse) (r : Request) : Response × Option Err :=
  match c.doBefore r with
  | (_, some e) => (Response.empty, some e)
  | (r1, none) =>
    let r2 := setupRequest parse c r1
    match transport r2.RawRequest with
    | .error e => (Response.empty, some e)
    | .ok hr =>
      let resp : Response := { Request := some r2, RawResponse := some hr, body := none }
      if !c.disableAutoReadResponse && !r2.isSaveResponse then
        match resp.ToBytes with
        | (resp1, .error e) => (resp1, some e)
        | (resp1, .ok _) => runRespMWs c.view c.afterResponse resp1
      else
        runRespMWs c.view c.afterResponse resp

end Req

namespace ReqHeap

/-- The contents a heap cell can hold: one Go collection value.
Middleware stages are identified by numeric ids, since only the identity
and order of the stage lists matter to the aliasing claims. -/
inductive CollVal where
  | header : List (String × List String) → CollVal
  | values : List (String × List String) → CollVal
  | strMap : List (String × String) → CollVal
  | cookies : List Cookie → CollVal
  | reqMW : List Nat → CollVal
  | respMW : List Nat → CollVal
deriving DecidableEq

/-- The heap of collection allocations: a cell index (a `Nat`) stands for
the identity of one Go map/slice allocation, and an `Option Nat` field
with `none` models a nil map/slice.  `next` is the next fresh cell,
`mem` the contents of every cell. -/
structure Heap where
  next : Nat
  mem : Nat → CollVal

/-- Allocate a fresh cell holding `v`. -/
def Heap.alloc (h : Heap) (v : CollVal) : Nat × Heap :=
  (h.next, ⟨h.next + 1, fun r => if r = h.next then v else h.mem r⟩)

/-- Overwrite the cell at `r`. -/
def Heap.write (h : Heap) (r : Nat) (v : CollVal) : Heap :=
  ⟨h.next, fun x => if x = r then v else h.mem x⟩

/-- The `Client` of the aliasing model: every mutable collection field is
a reference into the heap (`none` = nil).  Scalar fields the two `Clone`
versions treat differently are carried along; the transport, logger,
codec functions and dump options are outside the collection-aliasing
claims. -/
structure Client where
  BaseURL : String
  PathParams : Option Nat
  QueryParams : Option Nat
  Headers : Option Nat
  Cookies : Option Nat
  FormData : Option Nat
  DebugLog : Bool
  AllowGetMethodPayload : Bool
  scheme : String
  disableAutoReadResponse : Bool
  beforeRequest : Option Nat
  udBeforeRequest : Option Nat
  afterResponse : Option Nat
deriving DecidableEq

/-- `cloneHeaders`: nil stays nil; otherwise a fresh header map is
allocated and every key/value added into it, i.e. a fresh cell with the
same contents. -/
def cloneHeaders (h : Heap) (o : Option Nat) : Option Nat × Heap :=
  match o with
  | none => (none, h)
  | some r =>
    let (r', h') := h.alloc (h.mem r)
    (some r', h')

/-- `cloneUrlValues` / `cloneMap`: nil stays nil; otherwise a fresh cell
with the same contents (the Go helpers rebuild the map entry by entry). -/
def cloneUrlValues (h : Heap) (o : Option Nat) : Option Nat × Heap :=
  match o with
  | none => (none, h)
  | some r =>
    let (r', h') := h.alloc (h.mem r)
    (some r', h')

/-- `cloneMap` for `map[string]string` (same copying shape as
`cloneUrlValues`). -/
def cloneMap (h : Heap) (o : Option Nat) : Option Nat × Heap :=
  match o with
  | none => (none, h)
  | some r =>
    let (r', h') := h.alloc (h.mem r)
    (some r', h')

/-- `cloneCookies`: a nil or empty slice clones to nil; otherwise a fresh
slice with the same elements. -/
def cloneCookies (h : Heap) (o : Option Nat) : Option Nat × Heap :=
  match o with
  | none => (none, h)
  | some r =>
    match h.mem r with
    | .cookies [] => (none, h)
    | v =>
      let (r', h') := h.alloc v
      (some r', h')

/-- `cloneRequestMiddleware`: a nil or empty stage list clones to nil;
otherwise a fresh slice with the same elements. -/
def cloneRequestMiddleware (h : Heap) (o : Option Nat) : Option Nat × Heap :=
  match o with
  | none => (none, h)
  | some r =>
    match h.mem r with
    | .reqMW [] => (none, h)
    | v =>
      let (r', h') := h.alloc v
      (some r', h')

/-- `cloneResponseMiddleware`: same shape as `cloneRequestMiddleware`. -/
def cloneResponseMiddleware (h : Heap) (o : Option Nat) : Option Nat × Heap :=
  match o with
  | none => (none, h)
  | some r =>
    match h.mem r with
    | .respMW [] => (none, h)
    | v =>
      let (r', h') := h.alloc v
      (some r', h')

/-- `Client.Clone`, first version of the source (lines 1039-1067): copy
the struct (`cc := *c`), then replace every mutable collection field by a
deep copy, in the source's order. -/
def Client.Clone (c : Client) (h : Heap) : Client × Heap :=
  let (headers, h) := cloneHeaders h c.Headers
  let (cookies, h) := cloneCookies h c.Cookies
  let (pathParams, h) := cloneMap h c.PathParams
  let (queryParams, h) := cloneUrlValues h c.QueryParams
  let (formData, h) := cloneUrlValues h c.FormData
  let (before, h) := cloneRequestMiddleware h c.beforeRequest
  let (udBefore, h) := cloneRequestMiddleware h c.udBeforeRequest
  let (after, h) := cloneResponseMiddleware h c.afterResponse
  ({ c with
      Headers := headers, Cookies := cookies, PathParams := pathParams,
      QueryParams := queryParams, FormData := formData,
      beforeRequest := before, udBeforeRequest := udBefore,
      afterResponse := after }, h)

/-- `Client.Clone`, second version of the source (lines 2060-2081),
embedded under the name `CloneB`: it rebuilds the client field by field,
deep-copying only `Headers`, `PathParams` and `QueryParams`; `Cookies`,
`FormData` and `afterResponse` are left at their zero value (nil), the
`beforeRequest` and `udBeforeRequest` slices are shared with the
original, and the `DebugLog` / `AllowGetMethodPayload` flags are dropped. -/
def Client.CloneB (c : Client) (h : Heap) : Client × Heap :=
  let (headers, h) := cloneHeaders h c.Headers
  let (pathParams, h) := cloneMap h c.PathParams
  let (queryParams, h) := cloneUrlValues h c.QueryParams
  ({ BaseURL := c.BaseURL,
     PathParams := pathParams,
     QueryParams := queryParams,
     Headers := headers,
     Cookies := none,
     FormData := none,
     DebugLog := false,
     AllowGetMethodPayload := false,
     scheme := c.scheme,
     disableAutoReadResponse := c.disableAutoReadResponse,
     beforeRequest := c.beforeRequest,
     udBeforeRequest := c.udBeforeRequest,
     afterResponse := none }, h)

/-- `Client.SetCommonHeader` in the aliasing model: create the header map
when nil, then `Set` the key in place (a heap write, visible through every
alias of the map). -/
def Client.SetCommonHeader (c : Client) (h : Heap) (k v : String) : Client × Heap :=
  match c.Headers with
  | none =>
    let (r, h') := h.alloc (.header (multiSet [] k v))
    ({ c with Headers := some r }, h')
  | some r =>
    match h.mem r with
    | .header l => (c, h.write r (.header (multiSet l k v)))
    | w => (c, h.write r w)

/-- The collection references held by a client, for well-formedness. -/
def Client.refs (c : Client) : List (Option Nat) :=
  [c.PathParams, c.QueryParams, c.Headers, c.Cookies, c.FormData,
   c.beforeRequest, c.udBeforeRequest, c.afterResponse]

/-- A client is well-formed in a heap when every collection reference it
holds is an allocated cell. -/
def WF (c : Client) (h : Heap) : Prop :=
  ∀ r : Nat, some r ∈ c.refs → r < h.next

end ReqHeap

namespace Req

/-- Fixture: an empty raw request. -/
def req0 : HttpRequest :=
  { Method := "", URL := { Scheme := "", Host := "", Path := "", RawQuery := "" },
    Host := "", Header := [], cookies := [] }

/-- Fixture: a URL parser that always succeeds with a plain host. -/
def parseOk : String → Except Err URL :=
  fun _ => .ok { Scheme := "http", Host := "example.com", Path := "/", RawQuery := "" }

/-- Fixture: a URL whose host carries an empty port segment. -/
def urlEmptyPort : URL :=
  { Scheme := "http", Host := "example.com:", Path := "/", RawQuery := "" }

/-- Fixture: a URL parser returning the empty-port host. -/
def parseEmptyPort : String → Except Err URL := fun _ => .ok urlEmptyPort

/-- Fixture: a URL parser that always fails. -/
def parseFail : String → Except Err URL := fun _ => .error "bad url"

/-- Fixture: a query-string parser that always fails. -/
def parseQueryFail : String → Except Err (List (String × List String)) :=
  fun _ => .error "bad query"

/-- Fixture: a certificate loader that always fails. -/
def loadCertFail : String → String → Except Err Certificate :=
  fun _ _ => .error "no such file"

/-- Fixture: a successful transport response with body bytes. -/
def respOk : HttpResponse := { StatusCode := 200, Header := [], bodyStream := .ok [104, 105] }

/-- Fixture: a transport that always succeeds with `respOk`. -/
def transportOk : HttpRequest → Except Err HttpResponse := fun _ => .ok respOk

/-- Fixture: a user before-stage that fails with a fixed error. -/
def failMW : RequestMiddleware := fun _ r => (r, some "boom")

/-- Fixture: a client whose only user before-stage fails. -/
def cFail : Client := { C with udBeforeRequest := [failMW] }

/-- Fixture: a redirect policy allowing every hop. -/
def polClean : RedirectPolicy := fun _ _ => none

/-- Fixture: a redirect policy aborting every hop. -/
def polStop : RedirectPolicy := fun _ _ => some "custom stop"

/-- Fixture: another aborting redirect policy, used after `polStop` to
show it is never consulted. -/
def polOther : RedirectPolicy := fun _ _ => some "other"

end Req

namespace ReqHeap

/-- Fixture heap: cells 0..7 are allocated; cell 0 holds one cookie,
cell 1 form data, cell 2 a user after-stage list, cell 3 a user
before-stage list, cell 4 a header map, cell 5 path params, cell 6 query
params, cell 7 the built-in before-stage list. -/
def h0 : Heap :=
  { next := 8,
    mem := fun r =>
      if r = 0 then .cookies [{ name := "sid", value := "1" }]
      else if r = 1 then .values [("f", ["1"])]
      else if r = 2 then .respMW [9]
      else if r = 3 then .reqMW [5]
      else if r = 4 then .header [("X-A", ["1"])]
      else if r = 5 then .strMap [("k", "v")]
      else if r = 6 then .values [("q", ["2"])]
      else if r = 7 then .reqMW [1, 2, 3, 4]
      else .strMap [] }

/-- Fixture client owning all eight cells of `h0`. -/
def c0 : Client :=
  { BaseURL := "https://a.example", PathParams := some 5, QueryParams := some 6,
    Headers := some 4, Cookies := some 0, FormData := some 1,
    DebugLog := true, AllowGetMethodPayload := true, scheme := "https",
    disableAutoReadResponse := false,
    beforeRequest := some 7, udBeforeRequest := some 3, afterResponse := some 2 }

end ReqHeap

namespace Req

theorem runReqMWs_append (cv : ClientView) (xs ys : List RequestMiddleware) (r : Request) :
    runReqMWs cv (xs ++ ys) r =
      match runReqMWs cv xs r with
      | (r1, none) => runReqMWs cv ys r1
      | (r1, some e) => (r1, some e) := by
  induction xs generalizing r with
  | nil => simp [runReqMWs]
  | cons f rest ih =>
    simp only [List.cons_append, runReqMWs]
    rcases hf : f cv r with ⟨r1, eo⟩
    cases eo <;> simp [hf, ih]

theorem runRespMWs_append (cv : ClientView) (xs ys : List ResponseMiddleware) (resp : Response) :
    runRespMWs cv (xs ++ ys) resp =
      match runRespMWs cv xs resp with
      | (resp1, none) => runRespMWs cv ys resp1
      | (resp1, some e) => (resp1, some e) := by
  induction xs generalizing resp with
  | nil => simp [runRespMWs]
  | cons f rest ih =>
    simp only [List.cons_append, runRespMWs]
    rcases hf : f cv resp with ⟨resp1, eo⟩
    cases eo <;> simp [hf, ih]

theorem Client.doBefore_eq (c : Client) (r : Request) :
    c.doBefore r = runReqMWs c.view (c.udBeforeRequest ++ c.beforeRequest) r := by
  rw [runReqMWs_append]
  unfold Client.doBefore
  rcases h : runReqMWs c.view c.udBeforeRequest r with ⟨r1, eo⟩
  cases eo <;> simp

theorem foldl_OnBeforeRequest (us : List RequestMiddleware) (c : Client) :
    ((us.foldl Client.OnBeforeRequest c).udBeforeRequest = c.udBeforeRequest ++ us)
    ∧ ((us.foldl Client.OnBeforeRequest c).beforeRequest = c.beforeRequest)
    ∧ ((us.foldl Client.OnBeforeRequest c).afterResponse = c.afterResponse) := by
  induction us generalizing c with
  | nil => simp
  | cons u rest ih =>
    simp only [List.foldl_cons]
    refine ⟨?_, ?_, ?_⟩
    · rw [(ih _).1]; simp [Client.OnBeforeRequest]
    · rw [(ih _).2.1]; simp [Client.OnBeforeRequest]
    · rw [(ih _).2.2]; simp [Client.OnBeforeRequest]

theorem foldl_OnAfterResponse (vs : List ResponseMiddleware) (c : Client) :
    ((vs.foldl Client.OnAfterResponse c).afterResponse = c.afterResponse ++ vs)
    ∧ ((vs.foldl Client.OnAfterResponse c).udBeforeRequest = c.udBeforeRequest)
    ∧ ((vs.foldl Client.OnAfterResponse c).beforeRequest = c.beforeRequest) := by
  induction vs generalizing c with
  | nil => simp
  | cons v rest ih =>
    simp only [List.foldl_cons]
    refine ⟨?_, ?_, ?_⟩
    · rw [(ih _).1]; simp [Client.OnAfterResponse]
    · rw [(ih _).2.1]; simp [Client.OnAfterResponse]
    · rw [(ih _).2.2]; simp [Client.OnAfterResponse]

/-- Claim C5: `isPayloadForbid m` holds exactly when `m` is GET with
`AllowGetMethodPayload` unset, or `m` is HEAD or OPTIONS; a GET body is
allowed once the flag is set, while HEAD and OPTIONS forbid a body
regardless of the flag. -/
theorem isPayloadForbid_spec :
    (∀ (c : Client) (m : String),
        c.isPayloadForbid m = true ↔
          ((m = "GET" ∧ c.AllowGetMethodPayload = false) ∨ m = "HEAD" ∨ m = "OPTIONS"))
    ∧ (∀ c : Client, c.AllowGetMethodPayload = true → c.isPayloadForbid "GET" = false)
    ∧ (∀ c : Client, c.isPayloadForbid "HEAD" = true ∧ c.isPayloadForbid "OPTIONS" = true) := by
  refine ⟨?_, ?_, ?_⟩
  · intro c m
    simp [Client.isPayloadForbid, Bool.not_eq_true', or_assoc]
  · intro c h
    simp [Client.isPayloadForbid, h]
  · intro c
    constructor <;> simp [Client.isPayloadForbid]

/-- Witness for C5 at concrete inputs. -/
theorem isPayloadForbid_spec_witness :
    (C.isPayloadForbid "GET" = true)
    ∧ ((C.EnableAllowGetMethodPayload true).isPayloadForbid "GET" = false)
    ∧ (C.isPayloadForbid "HEAD" = true) :=
  ⟨(isPayloadForbid_spec.1 C "GET").mpr (Or.inl ⟨rfl, rfl⟩),
   isPayloadForbid_spec.2.1 (C.EnableAllowGetMethodPayload true) rfl,
   (isPayloadForbid_spec.2.2 C).1⟩

/-- Claim C6: the constructor installs `defaultCheckRedirect` as the
redirect decision, which allows every hop with fewer than 10 prior
requests in the history and fails with the terminal error as soon as the
history reaches 10 prior requests. -/
theorem defaultCheckRedirect_spec :
    (C.httpClient.CheckRedirect = defaultCheckRedirect)
    ∧ (∀ (req : HttpRequest) (via : List HttpRequest),
        (via.length < 10 → defaultCheckRedirect req via = none)
        ∧ (10 ≤ via.length → defaultCheckRedirect req via = some "stopped after 10 redirects")) := by
  refine ⟨rfl, fun req via => ⟨fun h => ?_, fun h => ?_⟩⟩
  · have hn : ¬ (via.length ≥ 10) := by omega
    simp [defaultCheckRedirect, hn]
  · simp [defaultCheckRedirect, ge_iff_le, h]

/-- Witness for C6: histories of length 9 and 10. -/
theorem defaultCheckRedirect_spec_witness :
    (defaultCheckRedirect req0 (List.replicate 9 req0) = none)
    ∧ (defaultCheckRedirect req0 (List.replicate 10 req0) = some "stopped after 10 redirects") :=
  ⟨(defaultCheckRedirect_spec.2 req0 (List.replicate 9 req0)).1 (by simp),
   (defaultCheckRedirect_spec.2 req0 (List.replicate 10 req0)).2 (by simp)⟩

/-- Claim C9: each configuration setter given invalid input absorbs the
failure of its external collaborator: the call is total (no panic), the
client's configuration is unmodified, and the unchanged client is
returned for further chaining. -/
theorem config_error_absorbed :
    (∀ (parse : String → Except Err URL) (c : Client) (s : String) (e : Err),
        parse s = .error e → c.SetProxyURL parse s = c)
    ∧ (∀ (parseQuery : String → Except Err (List (String × List String)))
          (c : Client) (q : String) (e : Err),
        parseQuery q.trim = .error e → c.SetCommonQueryString parseQuery q = c)
    ∧ (∀ (load : String → String → Except Err Certificate) (c : Client) (f k : String) (e : Err),
        load f k = .error e → c.SetCertFromFile load f k = c) := by
  refine ⟨?_, ?_, ?_⟩
  · intro parse c s e h
    simp [Client.SetProxyURL, h]
  · intro parseQuery c q e h
    simp [Client.SetCommonQueryString, h]
  · intro load c f k e h
    simp [Client.SetCertFromFile, h]

/-- Witness for C9: failing parsers and loaders leave `C` unchanged. -/
theorem config_error_absorbed_witness :
    (C.SetProxyURL parseFail ":bad" = C)
    ∧ (C.SetCommonQueryString parseQueryFail "%" = C)
    ∧ (C.SetCertFromFile loadCertFail "c.pem" "k.pem" = C) :=
  ⟨config_error_absorbed.1 parseFail C ":bad" "bad url" rfl,
   config_error_absorbed.2.1 parseQueryFail C "%" "bad query" rfl,
   config_error_absorbed.2.2 loadCertFail C "c.pem" "k.pem" "no such file" rfl⟩

/-- Claim C10: `SetDefaultClient` replaces the global default only for a
non-nil argument and leaves it unchanged for nil, so starting from the
constructor-built default, the global default client is non-nil after any
sequence of `SetDefaultClient` calls, and the package-level `R` always
forwards to a valid client. -/
theorem default_client_never_nil :
    (∀ (st : Option Client) (c : Client), SetDefaultClient st (some c) = some c)
    ∧ (∀ st : Option Client, SetDefaultClient st none = st)
    ∧ (∀ ops : List (Option Client), (ops.foldl SetDefaultClient (some C)).isSome = true)
    ∧ (∀ ops : List (Option Client), (globalR (ops.foldl SetDefaultClient (some C))).isSome = true) := by
  have key : ∀ (ops : List (Option Client)) (st : Option Client), st.isSome = true →
      (ops.foldl SetDefaultClient st).isSome = true := by
    intro ops
    induction ops with
    | nil => intro st h; exact h
    | cons op rest ih =>
      intro st h
      cases op with
      | none => exact ih st h
      | some c => exact ih (some c) rfl
  refine ⟨fun st c => rfl, fun st => rfl, fun ops => key ops (some C) rfl, fun ops => ?_⟩
  rcases ho : ops.foldl SetDefaultClient (some C) with _ | c
  · have := key ops (some C) rfl
    rw [ho] at this
    simp at this
  · simp [globalR, ho]

end Req

namespace Req

/-- Claim C2: under the constructor plus registration API, the user
before-stages are exactly `udBeforeRequest` in registration order and the
built-ins are `beforeRequest`; `doBefore` executes the user list strictly
before the built-in list (one fail-fast fold over their concatenation);
and on the response side the constructor-installed built-ins form the
prefix of `afterResponse` with `OnAfterResponse`-registered stages
appended after them, the fold running the prefix strictly first. -/
theorem stage_order_invariant :
    (∀ (us : List RequestMiddleware) (vs : List ResponseMiddleware),
        ((us.foldl Client.OnBeforeRequest C).udBeforeRequest = us)
        ∧ ((us.foldl Client.OnBeforeRequest C).beforeRequest
            = [parseRequestURL, parseRequestHeader, parseRequestCookie, parseRequestBody])
        ∧ ((vs.foldl Client.OnAfterResponse (us.foldl Client.OnBeforeRequest C)).afterResponse
            = [parseResponseBody, handleDownload] ++ vs)
        ∧ ((vs.foldl Client.OnAfterResponse (us.foldl Client.OnBeforeRequest C)).udBeforeRequest = us))
    ∧ (∀ (c : Client) (r : Request),
        c.doBefore r = runReqMWs c.view (c.udBeforeRequest ++ c.beforeRequest) r)
    ∧ (∀ (cv : ClientView) (builtins user : List ResponseMiddleware) (resp : Response),
        runRespMWs cv (builtins ++ user) resp =
          match runRespMWs cv builtins resp with
          | (resp1, none) => runRespMWs cv user resp1
          | (resp1, some e) => (resp1, some e)) := by
  refine ⟨?_, Client.doBefore_eq, runRespMWs_append⟩
  intro us vs
  refine ⟨?_, ?_, ?_, ?_⟩
  · rw [(foldl_OnBeforeRequest us C).1]; rfl
  · rw [(foldl_OnBeforeRequest us C).2.1]; rfl
  · rw [(foldl_OnAfterResponse vs _).1, (foldl_OnBeforeRequest us C).2.2]; rfl
  · rw [(foldl_OnAfterResponse vs _).2.1, (foldl_OnBeforeRequest us C).1]; rfl

/-- Claim C3: the first before-stage error aborts the pipeline: the
fail-fast fold never consults the stages after the failing one, and
`doRequest` returns that same error with the empty response, for every
transport (so the exchange is never dispatched). -/
theorem before_stage_error_fail_fast :
    (∀ (cv : ClientView) (l rest : List RequestMiddleware) (r r1 : Request) (e : Err),
        runReqMWs cv l r = (r1, some e) →
        runReqMWs cv (l ++ rest) r = (r1, some e))
    ∧ (∀ (parse : String → Except Err URL) (transport : HttpRequest → Except Err HttpResponse)
          (c : Client) (r r1 : Request) (e : Err),
        runReqMWs c.view (c.udBeforeRequest ++ c.beforeRequest) r = (r1, some e) →
        c.doRequest parse transport r = (Response.empty, some e)) := by
  constructor
  · intro cv l rest r r1 e h
    rw [runReqMWs_append, h]
  · intro parse transport c r r1 e h
    have hb : c.doBefore r = (r1, some e) := by rw [Client.doBefore_eq, h]
    simp [Client.doRequest, hb]

/-- Witness for C3: a failing user stage aborts `doRequest` with its
error, independent of the stages and transport that would follow. -/
theorem before_stage_error_fail_fast_witness :
    (runReqMWs cFail.view ([failMW] ++ [parseRequestURL]) (C.R) = (C.R, some "boom"))
    ∧ (cFail.doRequest parseFail transportOk (C.R) = (Response.empty, some "boom")) :=
  ⟨before_stage_error_fail_fast.1 cFail.view [failMW] [parseRequestURL] (C.R) (C.R) "boom" rfl,
   before_stage_error_fail_fast.2 parseFail transportOk cFail (C.R) (C.R) "boom" rfl⟩

/-- Claim C4: when the before phase and the transport succeed, the
response handed to the after-pipeline fold (and returned when no after
stage is registered) has its body fully read and buffered, unless
auto-read is disabled on the client or the request is marked
save-to-file, in which case the dispatcher leaves the body unbuffered. -/
theorem do_auto_read_buffers_body :
    ∀ (parse : String → Except Err URL) (transport : HttpRequest → Except Err HttpResponse)
      (c : Client) (r r1 : Request) (hr : HttpResponse) (bs : List Nat),
      c.doBefore r = (r1, none) →
      transport (setupRequest parse c r1).RawRequest = .ok hr →
      hr.bodyStream = .ok bs →
      ((c.disableAutoReadResponse = false → (setupRequest parse c r1).isSaveResponse = false →
          c.doRequest parse transport r
            = runRespMWs c.view c.afterResponse
                { Request := some (setupRequest parse c r1), RawResponse := some hr, body := some bs })
      ∧ ((c.disableAutoReadResponse = true ∨ (setupRequest parse c r1).isSaveResponse = true) →
          c.doRequest parse transport r
            = runRespMWs c.view c.afterResponse
                { Request := some (setupRequest parse c r1), RawResponse := some hr, body := none })) := by
  intro parse transport c r r1 hr bs hb ht hs
  constructor
  · intro hd hsave
    simp [Client.doRequest, hb, ht, hd, hsave, Response.ToBytes, hs]
  · intro hdis
    rcases hdis with hd | hsave
    · simp [Client.doRequest, hb, ht, hd]
    · simp [Client.doRequest, hb, ht, hsave]

/-- Witness for C4: with the default client the dispatched body is
buffered before the after stages run. -/
theorem do_auto_read_buffers_body_witness :
    C.doRequest parseOk transportOk (C.R)
      = runRespMWs C.view C.afterResponse
          { Request := some (setupRequest parseOk C (C.R)), RawResponse := some respOk,
            body := some [104, 105] } :=
  (do_auto_read_buffers_body parseOk transportOk C (C.R) (C.R) respOk [104, 105]
    rfl rfl rfl).1 rfl rfl

/-- Claim C7: the decision function installed by `SetRedirectPolicy`
evaluates the policies in list order skipping nil entries: when they all
allow the hop the composition allows it, and the first non-nil error is
returned no matter what the later policies would decide (they are never
consulted); a non-empty policy list replaces `CheckRedirect` with this
composition. -/
theorem redirect_policy_compose :
    (∀ (ps : List (Option RedirectPolicy)) (req : HttpRequest) (via : List HttpRequest),
        (∀ f : RedirectPolicy, some f ∈ ps → f req via = none) →
        composeRedirectPolicies ps req via = none)
    ∧ (∀ (ps : List (Option RedirectPolicy)) (f : RedirectPolicy)
          (qs : List (Option RedirectPolicy)) (req : HttpRequest) (via : List HttpRequest) (e : Err),
        (∀ g : RedirectPolicy, some g ∈ ps → g req via = none) →
        f req via = some e →
        composeRedirectPolicies (ps ++ some f :: qs) req via = some e)
    ∧ (∀ (c : Client) (ps : List (Option RedirectPolicy)), ps ≠ [] →
        (c.SetRedirectPolicy ps).httpClient.CheckRedirect = composeRedirectPolicies ps) := by
  refine ⟨?_, ?_, ?_⟩
  · intro ps req via h
    induction ps with
    | nil => rfl
    | cons op rest ih =>
      cases op with
      | none =>
        exact ih (fun f hf => h f (List.mem_cons_of_mem _ hf))
      | some f =>
        have hf : f req via = none := h f (List.mem_cons_self _ _)
        simp only [composeRedirectPolicies, applyPolicies, hf]
        exact ih (fun g hg => h g (List.mem_cons_of_mem _ hg))
  · intro ps f qs req via e h hf
    induction ps with
    | nil =>
      simp only [List.nil_append, composeRedirectPolicies, applyPolicies, hf]
    | cons op rest ih =>
      cases op with
      | none =>
        exact ih (fun g hg => h g (List.mem_cons_of_mem _ hg))
      | some g =>
        have hg : g req via = none := h g (List.mem_cons_self _ _)
        simp only [List.cons_append, composeRedirectPolicies, applyPolicies, hg]
        exact ih (fun g' hg' => h g' (List.mem_cons_of_mem _ hg'))
  · intro c ps hps
    have hl : ¬ ps.length = 0 := by simpa [List.length_eq_zero] using hps
    simp [Client.SetRedirectPolicy, hl]

/-- Witness for C7: a nil entry and a clean policy are passed over, the
first erroring policy decides, and a later policy that would return a
different error is never consulted. -/
theorem redirect_policy_compose_witness :
    (composeRedirectPolicies [none, some polClean] req0 [] = none)
    ∧ (composeRedirectPolicies ([none, some polClean] ++ some polStop :: [some polOther]) req0 []
        = some "custom stop")
    ∧ ((C.SetRedirectPolicy [some polStop]).httpClient.CheckRedirect
        = composeRedirectPolicies [some polStop]) := by
  refine ⟨redirect_policy_compose.1 [none, some polClean] req0 [] ?_,
    redirect_policy_compose.2.1 [none, some polClean] polStop [some polOther] req0 [] "custom stop" ?_ rfl,
    redirect_policy_compose.2.2 C [some polStop] (by simp)⟩
  all_goals
    intro g hg
    simp only [List.mem_cons, List.mem_singleton, reduceCtorEq, false_or, Option.some.injEq] at hg
    rcases hg with hg | hg
    · rw [hg]; rfl
    · simp at hg

theorem removeEmptyPort_trailing (h : String) (h1 : hasPort h = true)
    (h2 : strEndsWith h ":" = true) :
    removeEmptyPort h = String.mk h.toList.dropLast := by
  unfold removeEmptyPort trimSuffix
  rw [if_pos h1, if_pos h2, List.dropLast_eq_take]
  rfl

/-- Claim C8: `setRequestURL` on a URL whose host carries an empty port
segment sets the raw request's host (and the URL's host) to the host with
the trailing colon normalized away (the host's characters without the
last one, the colon). -/
theorem setRequestURL_normalizes_empty_port :
    ∀ (parse : String → Except Err URL) (r : HttpRequest) (url : String) (u : URL),
      parse url = .ok u → hasPort u.Host = true → strEndsWith u.Host ":" = true →
      ∃ r' : HttpRequest, setRequestURL parse r url = .ok r'
        ∧ r'.Host = String.mk u.Host.toList.dropLast
        ∧ r'.URL.Host = String.mk u.Host.toList.dropLast := by
  intro parse r url u hp h1 h2
  have hre : removeEmptyPort u.Host = String.mk u.Host.toList.dropLast :=
    removeEmptyPort_trailing u.Host h1 h2
  exact ⟨{ r with URL := { u with Host := String.mk u.Host.toList.dropLast }, Host := String.mk u.Host.toList.dropLast }, by simp [setRequestURL, hp, hre], rfl, rfl⟩

/-- Witness for C8: host `example.com:` resolves to host `example.com`. -/
theorem setRequestURL_normalizes_empty_port_witness :
    ∃ r' : HttpRequest, setRequestURL parseEmptyPort req0 "http://example.com:/" = .ok r'
      ∧ r'.Host = "example.com" ∧ r'.URL.Host = "example.com" := by
  obtain ⟨r', ha, hb, hc⟩ := setRequestURL_normalizes_empty_port parseEmptyPort req0
    "http://example.com:/" urlEmptyPort rfl (by decide) (by decide)
  exact ⟨r', ha, hb.trans (by decide), hc.trans (by decide)⟩

end Req

namespace ReqHeap

theorem Heap.alloc_mem_lt (h : Heap) (v : CollVal) (r : Nat) (hr : r < h.next) :
    (h.alloc v).2.mem r = h.mem r := by
  simp [Heap.alloc, Nat.ne_of_lt hr]

theorem Heap.write_mem_ne (h : Heap) (r0 : Nat) (v : CollVal) (r : Nat) (hr : ¬ r = r0) :
    (h.write r0 v).mem r = h.mem r := by
  simp [Heap.write, hr]

theorem cloneHeaders_step (h : Heap) (o : Option Nat) :
    h.next ≤ (cloneHeaders h o).2.next
    ∧ (∀ r, r < h.next → (cloneHeaders h o).2.mem r = h.mem r)
    ∧ (∀ r', (cloneHeaders h o).1 = some r' → h.next ≤ r') := by
  cases o with
  | none =>
    refine ⟨Nat.le_refl _, fun r _ => rfl, fun r' hr' => ?_⟩
    simp [cloneHeaders] at hr'
  | some r =>
    refine ⟨Nat.le_succ h.next, fun rr hrr => Heap.alloc_mem_lt h _ rr hrr, ?_⟩
    intro r' hr'
    simp only [cloneHeaders, Heap.alloc, Option.some.injEq] at hr'
    exact le_of_eq hr'

theorem cloneUrlValues_step (h : Heap) (o : Option Nat) :
    h.next ≤ (cloneUrlValues h o).2.next
    ∧ (∀ r, r < h.next → (cloneUrlValues h o).2.mem r = h.mem r)
    ∧ (∀ r', (cloneUrlValues h o).1 = some r' → h.next ≤ r') := by
  cases o with
  | none =>
    refine ⟨Nat.le_refl _, fun r _ => rfl, fun r' hr' => ?_⟩
    simp [cloneUrlValues] at hr'
  | some r =>
    refine ⟨Nat.le_succ h.next, fun rr hrr => Heap.alloc_mem_lt h _ rr hrr, ?_⟩
    intro r' hr'
    simp only [cloneUrlValues, Heap.alloc, Option.some.injEq] at hr'
    exact le_of_eq hr'

theorem cloneMap_step (h : Heap) (o : Option Nat) :
    h.next ≤ (cloneMap h o).2.next
    ∧ (∀ r, r < h.next → (cloneMap h o).2.mem r = h.mem r)
    ∧ (∀ r', (cloneMap h o).1 = some r' → h.next ≤ r') := by
  cases o with
  | none =>
    refine ⟨Nat.le_refl _, fun r _ => rfl, fun r' hr' => ?_⟩
    simp [cloneMap] at hr'
  | some r =>
    refine ⟨Nat.le_succ h.next, fun rr hrr => Heap.alloc_mem_lt h _ rr hrr, ?_⟩
    intro r' hr'
    simp only [cloneMap, Heap.alloc, Option.some.injEq] at hr'
    exact le_of_eq hr'

theorem cloneCookies_step (h : Heap) (o : Option Nat) :
    h.next ≤ (cloneCookies h o).2.next
    ∧ (∀ r, r < h.next → (cloneCookies h o).2.mem r = h.mem r)
    ∧ (∀ r', (cloneCookies h o).1 = some r' → h.next ≤ r') := by
  cases o with
  | none =>
    refine ⟨Nat.le_refl _, fun r _ => rfl, fun r' hr' => ?_⟩
    simp [cloneCookies] at hr'
  | some r =>
    simp only [cloneCookies]
    split
    · exact ⟨Nat.le_refl _, fun rr _ => rfl, fun r' hr' => by simp at hr'⟩
    · refine ⟨Nat.le_succ h.next, fun rr hrr => Heap.alloc_mem_lt h _ rr hrr, ?_⟩
      intro r' hr'
      simp only [Heap.alloc, Option.some.injEq] at hr'
      exact le_of_eq hr'

theorem cloneRequestMiddleware_step (h : Heap) (o : Option Nat) :
    h.next ≤ (cloneRequestMiddleware h o).2.next
    ∧ (∀ r, r < h.next → (cloneRequestMiddleware h o).2.mem r = h.mem r)
    ∧ (∀ r', (cloneRequestMiddleware h o).1 = some r' → h.next ≤ r') := by
  cases o with
  | none =>
    refine ⟨Nat.le_refl _, fun r _ => rfl, fun r' hr' => ?_⟩
    simp [cloneRequestMiddleware] at hr'
  | some r =>
    simp only [cloneRequestMiddleware]
    split
    · exact ⟨Nat.le_refl _, fun rr _ => rfl, fun r' hr' => by simp at hr'⟩
    · refine ⟨Nat.le_succ h.next, fun rr hrr => Heap.alloc_mem_lt h _ rr hrr, ?_⟩
      intro r' hr'
      simp only [Heap.alloc, Option.some.injEq] at hr'
      exact le_of_eq hr'

theorem cloneResponseMiddleware_step (h : Heap) (o : Option Nat) :
    h.next ≤ (cloneResponseMiddleware h o).2.next
    ∧ (∀ r, r < h.next → (cloneResponseMiddleware h o).2.mem r = h.mem r)
    ∧ (∀ r', (cloneResponseMiddleware h o).1 = some r' → h.next ≤ r') := by
  cases o with
  | none =>
    refine ⟨Nat.le_refl _, fun r _ => rfl, fun r' hr' => ?_⟩
    simp [cloneResponseMiddleware] at hr'
  | some r =>
    simp only [cloneResponseMiddleware]
    split
    · exact ⟨Nat.le_refl _, fun rr _ => rfl, fun r' hr' => by simp at hr'⟩
    · refine ⟨Nat.le_succ h.next, fun rr hrr => Heap.alloc_mem_lt h _ rr hrr, ?_⟩
      intro r' hr'
      simp only [Heap.alloc, Option.some.injEq] at hr'
      exact le_of_eq hr'

/-- Supporting theorem for the clone contract: the first `Clone`
implementation never touches the cells the original client can reach
(every cell below the allocation frontier is preserved), and every
collection reference of the clone is a fresh cell at or above the
frontier — so under well-formedness the clone shares no collection cell
with the original. -/
theorem Clone_fresh_and_preserving (c : Client) (h : Heap) :
    (h.next ≤ (c.Clone h).2.next)
    ∧ (∀ r, r < h.next → (c.Clone h).2.mem r = h.mem r)
    ∧ (∀ r', some r' ∈ (c.Clone h).1.refs → h.next ≤ r')
    ∧ (∀ _hwf : WF c h, ∀ r r', some r ∈ c.refs → some r' ∈ (c.Clone h).1.refs → ¬ r = r') := by
  rcases e1 : cloneHeaders h c.Headers with ⟨headers, h1⟩
  rcases e2 : cloneCookies h1 c.Cookies with ⟨cookies, h2⟩
  rcases e3 : cloneMap h2 c.PathParams with ⟨pathParams, h3⟩
  rcases e4 : cloneUrlValues h3 c.QueryParams with ⟨queryParams, h4⟩
  rcases e5 : cloneUrlValues h4 c.FormData with ⟨formData, h5⟩
  rcases e6 : cloneRequestMiddleware h5 c.beforeRequest with ⟨before, h6⟩
  rcases e7 : cloneRequestMiddleware h6 c.udBeforeRequest with ⟨udBefore, h7⟩
  rcases e8 : cloneResponseMiddleware h7 c.afterResponse with ⟨after, h8⟩
  have hc : c.Clone h = ({ c with Headers := headers, Cookies := cookies, PathParams := pathParams, QueryParams := queryParams, FormData := formData, beforeRequest := before, udBeforeRequest := udBefore, afterResponse := after }, h8) := by
    simp [Client.Clone, e1, e2, e3, e4, e5, e6, e7, e8]
  have s1 := cloneHeaders_step h c.Headers
  have s2 := cloneCookies_step h1 c.Cookies
  have s3 := cloneMap_step h2 c.PathParams
  have s4 := cloneUrlValues_step h3 c.QueryParams
  have s5 := cloneUrlValues_step h4 c.FormData
  have s6 := cloneRequestMiddleware_step h5 c.beforeRequest
  have s7 := cloneRequestMiddleware_step h6 c.udBeforeRequest
  have s8 := cloneResponseMiddleware_step h7 c.afterResponse
  rw [e1] at s1
  rw [e2] at s2
  rw [e3] at s3
  rw [e4] at s4
  rw [e5] at s5
  rw [e6] at s6
  rw [e7] at s7
  rw [e8] at s8
  have n1 : h.next ≤ h1.next := s1.1
  have n2 : h1.next ≤ h2.next := s2.1
  have n3 : h2.next ≤ h3.next := s3.1
  have n4 : h3.next ≤ h4.next := s4.1
  have n5 : h4.next ≤ h5.next := s5.1
  have n6 : h5.next ≤ h6.next := s6.1
  have n7 : h6.next ≤ h7.next := s7.1
  have hpres : ∀ r, r < h.next → h8.mem r = h.mem r := by
    intro r hr
    rw [s8.2.1 r (by omega), s7.2.1 r (by omega), s6.2.1 r (by omega), s5.2.1 r (by omega),
      s4.2.1 r (by omega), s3.2.1 r (by omega), s2.2.1 r (by omega), s1.2.1 r hr]
  have hfresh : ∀ r', some r' ∈ (c.Clone h).1.refs → h.next ≤ r' := by
    intro r' hr'
    rw [hc] at hr'
    simp only [Client.refs, List.mem_cons, List.not_mem_nil, or_false] at hr'
    rcases hr' with hr' | hr' | hr' | hr' | hr' | hr' | hr' | hr'
    · have := s3.2.2 r' hr'.symm; omega
    · have := s4.2.2 r' hr'.symm; omega
    · have := s1.2.2 r' hr'.symm; omega
    · have := s2.2.2 r' hr'.symm; omega
    · have := s5.2.2 r' hr'.symm; omega
    · have := s6.2.2 r' hr'.symm; omega
    · have := s7.2.2 r' hr'.symm; omega
    · have := s8.2.2 r' hr'.symm; omega
  refine ⟨?_, ?_, hfresh, ?_⟩
  · have n8 : h7.next ≤ h8.next := s8.1
    rw [hc]
    show h.next ≤ h8.next
    omega
  · intro r hr
    rw [hc]
    exact hpres r hr
  · intro hwf r r' hr hr' heq
    have h1' := hwf r hr
    have h2' := hfresh r' hr'
    omega

/-- Supporting theorem: mutating the clone's headers through
`SetCommonHeader` (after the first `Clone` implementation) never changes
any collection cell the original client references. -/
theorem Clone_mutation_no_leak (c : Client) (h : Heap) (hwf : WF c h) (k v : String)
    (r : Nat) (hr : some r ∈ c.refs) :
    ((c.Clone h).1.SetCommonHeader (c.Clone h).2 k v).2.mem r = h.mem r := by
  have hlt : r < h.next := hwf r hr
  have pres := (Clone_fresh_and_preserving c h).2.1 r hlt
  have hnext := (Clone_fresh_and_preserving c h).1
  rcases hh : (c.Clone h).1.Headers with _ | rh
  · simp only [Client.SetCommonHeader, hh]
    exact (Heap.alloc_mem_lt _ _ r (Nat.lt_of_lt_of_le hlt hnext)).trans pres
  · have hmem : some rh ∈ (c.Clone h).1.refs := by
      simp [Client.refs, hh]
    have hfr : h.next ≤ rh := (Clone_fresh_and_preserving c h).2.2.1 rh hmem
    have hne : ¬ r = rh := by omega
    simp only [Client.SetCommonHeader, hh]
    split
    · exact (Heap.write_mem_ne _ _ _ r hne).trans pres
    · exact (Heap.write_mem_ne _ _ _ r hne).trans pres

/-- Claim C1: evaluated at the concrete well-formed client `c0` in heap
`h0` (every collection present and non-empty), the second `Clone`
implementation of the source violates the deep-copy contract: the clone's
`Cookies`, `FormData` and `afterResponse` are nil although the original's
are not, and the clone's stage lists `udBeforeRequest`/`beforeRequest`
are the very cells of the original (aliasing), whereas the first `Clone`
implementation gives the cookies a fresh cell with equal contents and a
header mutation through that clone leaves the original's header cell
untouched. -/
theorem clone_second_version_divergence :
    ((c0.CloneB h0).1.Cookies = none)
    ∧ ((c0.CloneB h0).1.FormData = none)
    ∧ ((c0.CloneB h0).1.afterResponse = none)
    ∧ ((c0.CloneB h0).1.udBeforeRequest = c0.udBeforeRequest)
    ∧ ((c0.CloneB h0).1.beforeRequest = c0.beforeRequest)
    ∧ (c0.Cookies = some 0 ∧ h0.mem 0 = CollVal.cookies [{ name := "sid", value := "1" }]
        ∧ c0.FormData = some 1 ∧ c0.afterResponse = some 2)
    ∧ ((c0.Clone h0).1.Cookies = some 9 ∧ (c0.Clone h0).2.mem 9 = h0.mem 0)
    ∧ (((c0.Clone h0).1.SetCommonHeader (c0.Clone h0).2 "X-A" "2").2.mem 4
        = CollVal.header [("X-A", ["1"])]) := by
  decide

end ReqHeap
